import Mathlib

/-
Verification of the local value-numbering pass in
src/HelloWorld/HelloWorld.cpp (llvm-tutor variant).

The pass walks every instruction of a function once, keeping
  * ValueNumbers : std::map<Value*, unsigned>   (value identity -> number)
  * LVNTable     : std::map<Expression, unsigned> (canonical key -> number)
  * nextValueNumber : unsigned, starting at 1,
and emits one diagnostic line per store / load / binary-arithmetic
instruction.

Embedding notes:
  * LLVM Value* identities are embedded as Nat.
  * std::map<K, unsigned> is embedded as K -> Option Nat; lookups performed
    with C++ operator[] (which DEFAULT-INSERTS 0 for a missing key) are
    embedded by mapIndex below, returning both the value read and the
    possibly-grown map.  This operator[] side effect is essential, faithful
    behaviour of the source (lines 93, 95, 96).
  * std::map<Expression, unsigned> is keyed by Expression::operator< (a
    lexicographic std::tie comparison); we prove below
    (Expression.lt_equiv_eq) that its induced key equivalence coincides with
    structural equality, which justifies embedding the table as a map keyed
    by equality.
  * The diagnostic line also renders the instruction text itself; that
    rendering is host-IR pretty-printing, outside the numbering engine, so a
    Diag record keeps only the numeric/mnemonic payload of the line.
-/

namespace ValueNumbering

/-- LLVM opcode constants (from llvm/IR/Instruction.def).  The engine only
compares opcodes for equality/order, so all that matters is that they are
the distinct numeric values the source compares against. -/
def Instruction.Add : Nat := 13

/-- LLVM opcode constant for integer subtraction. -/
def Instruction.Sub : Nat := 15

/-- LLVM opcode constant for integer multiplication. -/
def Instruction.Mul : Nat := 17

/-- LLVM opcode constant for unsigned division. -/
def Instruction.UDiv : Nat := 19

/-- LLVM opcode constant for signed division. -/
def Instruction.SDiv : Nat := 20

/-- Expression: the canonical key for one arithmetic computation,
`struct Expression { unsigned Opcode; unsigned LHS, RHS; }` (lines 35-49). -/
structure Expression where
  Opcode : Nat
  LHS : Nat
  RHS : Nat
deriving DecidableEq

/-- The Expression constructor (lines 39-44): stores (Op, L, R), except that
for the commutative opcodes Add and Mul it swaps the operand numbers when
L > R, so commuted operands build the same key. -/
def Expression.make (Op L R : Nat) : Expression :=
  if (Op = Instruction.Add ∨ Op = Instruction.Mul) ∧ R < L then
    ⟨Op, R, L⟩
  else
    ⟨Op, L, R⟩

/-- Expression::operator< (lines 46-48): lexicographic comparison of
(Opcode, LHS, RHS) via std::tie. -/
def Expression.lt (a b : Expression) : Bool :=
  decide (a.Opcode < b.Opcode ∨
    (a.Opcode = b.Opcode ∧ (a.LHS < b.LHS ∨ (a.LHS = b.LHS ∧ a.RHS < b.RHS))))

/-- The key equivalence induced by Expression::operator< in std::map
(neither key less than the other) is exactly structural equality, which
justifies modelling LVNTable as an equality-keyed map. -/
theorem Expression.lt_equiv_eq (a b : Expression) :
    (Expression.lt a b = false ∧ Expression.lt b a = false) ↔ a = b := by
  cases a with
  | mk ao al ar =>
    cases b with
    | mk bo bl br =>
      simp only [Expression.lt, decide_eq_false_iff_not, Expression.mk.injEq]
      constructor
      · intro h
        omega
      · intro h
        omega

/-- getOpcodeName (lines 51-60): display mnemonic for an opcode; both UDiv
and SDiv render as "div"; anything unrecognized renders as "unknown". -/
def getOpcodeName (Opcode : Nat) : String :=
  if Opcode = Instruction.Add then "add"
  else if Opcode = Instruction.Sub then "sub"
  else if Opcode = Instruction.Mul then "mul"
  else if Opcode = Instruction.UDiv then "div"
  else if Opcode = Instruction.SDiv then "div"
  else "unknown"

/-- The instruction shapes the visitor dispatches on (lines 74, 84, 94):
a store (operands: stored value, pointer), a load (its own result identity
and pointer operand), a binary operator (opcode, result identity, two
operand identities), or any other instruction (skipped). -/
inductive Instr where
  | store (storedValue pointer : Nat)
  | load (result pointer : Nat)
  | binop (opcode result lhs rhs : Nat)
  | other
deriving DecidableEq

/-- Numeric/mnemonic payload of one diagnostic line (the formatv calls at
lines 83, 93, 103, 109); the rendered instruction text itself is host-IR
printing and carries no numbering information. -/
inductive Diag where
  | store (ptrNum storedNum : Nat)
  | load (resNum ptrNum : Nat)
  | bin (resNum lhsNum : Nat) (opName : String) (rhsNum : Nat) (redundant : Bool)
deriving DecidableEq

/-- Whether a diagnostic record carries the "(redundant)" tag (only the
arithmetic line at 103 does). -/
def Diag.isRedundant : Diag → Bool
  | .bin _ _ _ _ r => r
  | _ => false

/-- The per-function mutable state of the visitor (lines 67-69). -/
structure LVNState where
  LVNTable : Expression → Option Nat
  ValueNumbers : Nat → Option Nat
  nextValueNumber : Nat

/-- Map update, `m[k] = v` on a std::map embedded as a function. -/
def updMap {α : Type} [DecidableEq α] (m : α → Option Nat) (k : α) (v : Nat) :
    α → Option Nat :=
  fun x => if x = k then some v else m x

/-- C++ std::map<_, unsigned>::operator[] read: returns the mapped value,
default-inserting 0 (value-initialized unsigned) when the key is absent.
Returns the value read and the possibly-grown map. -/
def mapIndex {α : Type} [DecidableEq α] (m : α → Option Nat) (k : α) :
    Nat × (α → Option Nat) :=
  match m k with
  | some n => (n, m)
  | none => (0, updMap m k 0)

/-- One iteration of the visitor's per-instruction body (lines 73-111).

store (74-83): if StoredValue has no number yet it is assigned
  nextValueNumber++; then ValueNumbers[Pointer] = ValueNumbers[StoredValue].
  The diagnostic reads ValueNumbers[Pointer] and ValueNumbers[StoredValue];
  both keys are present at that point, so those operator[] reads are inlined
  to the (equal) stored number.

load (84-93): if Pointer is in ValueNumbers the load's own identity gets the
  pointer's number, else it gets nextValueNumber++.  The diagnostic then
  reads ValueNumbers[&I] (present) and ValueNumbers[Pointer] via operator[]
  — in the miss branch that read DEFAULT-INSERTS Pointer -> 0 (unless the
  pointer identity coincides with the load itself), which is modelled by
  mapIndex.

binop (94-110): LHS/RHS operand numbers are read with operator[]
  (default-inserting 0 for an unnumbered operand), the canonical key is
  built with the Expression constructor, and the LVNTable decides between
  reusing the recorded number (redundant) and allocating a fresh one. -/
def step (s : LVNState) : Instr → LVNState × Option Diag
  | .store sv p =>
    match s.ValueNumbers sv with
    | some n =>
        ({ s with ValueNumbers := updMap s.ValueNumbers p n },
         some (.store n n))
    | none =>
        let c := s.nextValueNumber
        ({ s with ValueNumbers := updMap (updMap s.ValueNumbers sv c) p c,
                  nextValueNumber := c + 1 },
         some (.store c c))
  | .load i p =>
    match s.ValueNumbers p with
    | some n =>
        ({ s with ValueNumbers := updMap s.ValueNumbers i n },
         some (.load n n))
    | none =>
        let c := s.nextValueNumber
        let m1 := updMap s.ValueNumbers i c
        let r := mapIndex m1 p
        ({ s with ValueNumbers := r.2, nextValueNumber := c + 1 },
         some (.load c r.1))
  | .binop op i a b =>
    let la := mapIndex s.ValueNumbers a
    let rb := mapIndex la.2 b
    let e := Expression.make op la.1 rb.1
    match s.LVNTable e with
    | some n =>
        ({ s with ValueNumbers := updMap rb.2 i n },
         some (.bin n la.1 (getOpcodeName op) rb.1 true))
    | none =>
        let c := s.nextValueNumber
        ({ s with ValueNumbers := updMap rb.2 i c,
                  LVNTable := updMap s.LVNTable e c,
                  nextValueNumber := c + 1 },
         some (.bin c la.1 (getOpcodeName op) rb.1 false))
  | .other => (s, none)

/-- Run the visitor body over a list of instructions from a given state,
collecting the diagnostic stream in program order. -/
def runFrom (s : LVNState) : List Instr → LVNState × List Diag
  | [] => (s, [])
  | i :: rest =>
    let r1 := step s i
    let r2 := runFrom r1.1 rest
    (r2.1, r1.2.toList ++ r2.2)

/-- The fresh per-function state (lines 67-69): empty tables,
nextValueNumber = 1. -/
def initState : LVNState :=
  ⟨fun _ => none, fun _ => none, 1⟩

/-- visitor (lines 64-114): iterate over all basic blocks of the function in
order, and within each block over its instructions in order, from the fresh
per-function state. -/
def visitor (blocks : List (List Instr)) : LVNState × List Diag :=
  runFrom initState blocks.flatten

/-- The value numbers freshly issued (the pre-increment values of the
nextValueNumber++ occurrences at lines 79, 90, 105) while running from a
state, in order of issuance; each step issues exactly the counter values it
advances over. -/
def runIssued (s : LVNState) : List Instr → List Nat
  | [] => []
  | i :: rest =>
    let s1 := (step s i).1
    List.range' s.nextValueNumber (s1.nextValueNumber - s.nextValueNumber)
      ++ runIssued s1 rest

/-! ### Basic lemmas about the embedded map operations and the key builder -/

theorem updMap_same {α : Type} [DecidableEq α] (m : α → Option Nat) (k : α)
    (v : Nat) : updMap m k v k = some v := by
  simp [updMap]

theorem updMap_ne {α : Type} [DecidableEq α] (m : α → Option Nat) (k : α)
    (v : Nat) (x : α) (h : x ≠ k) : updMap m k v x = m x := by
  simp [updMap, h]

theorem mapIndex_hit {α : Type} [DecidableEq α] (m : α → Option Nat) (k : α)
    (n : Nat) (h : m k = some n) : mapIndex m k = (n, m) := by
  simp [mapIndex, h]

theorem mapIndex_miss {α : Type} [DecidableEq α] (m : α → Option Nat) (k : α)
    (h : m k = none) : mapIndex m k = (0, updMap m k 0) := by
  simp [mapIndex, h]

theorem Expression.make_comm (Op L R : Nat)
    (h : Op = Instruction.Add ∨ Op = Instruction.Mul) :
    Expression.make Op L R = Expression.make Op R L := by
  unfold Expression.make
  split_ifs with h1 h2 h3 <;> simp_all [Expression.mk.injEq] <;> omega

theorem Expression.make_noncomm (Op L R : Nat)
    (h1 : Op ≠ Instruction.Add) (h2 : Op ≠ Instruction.Mul) :
    Expression.make Op L R = ⟨Op, L, R⟩ := by
  simp [Expression.make, h1, h2]

/-! ### Characterizations of the four visitor branches -/

theorem step_store_hit (s : LVNState) (sv p n : Nat)
    (h : s.ValueNumbers sv = some n) :
    step s (.store sv p) =
      ({ s with ValueNumbers := updMap s.ValueNumbers p n },
       some (.store n n)) := by
  simp only [step, h]

theorem step_store_miss (s : LVNState) (sv p : Nat)
    (h : s.ValueNumbers sv = none) :
    step s (.store sv p) =
      ({ s with
          ValueNumbers :=
            updMap (updMap s.ValueNumbers sv s.nextValueNumber) p
              s.nextValueNumber,
          nextValueNumber := s.nextValueNumber + 1 },
       some (.store s.nextValueNumber s.nextValueNumber)) := by
  simp only [step, h]

theorem step_load_hit (s : LVNState) (i p n : Nat)
    (h : s.ValueNumbers p = some n) :
    step s (.load i p) =
      ({ s with ValueNumbers := updMap s.ValueNumbers i n },
       some (.load n n)) := by
  simp only [step, h]

theorem step_load_miss (s : LVNState) (i p : Nat)
    (h : s.ValueNumbers p = none) :
    step s (.load i p) =
      ({ s with
          ValueNumbers :=
            (mapIndex (updMap s.ValueNumbers i s.nextValueNumber) p).2,
          nextValueNumber := s.nextValueNumber + 1 },
       some (.load s.nextValueNumber
         (mapIndex (updMap s.ValueNumbers i s.nextValueNumber) p).1)) := by
  simp only [step, h]

theorem step_binop_hit (s : LVNState) (op i a b na nb n : Nat)
    (ha : s.ValueNumbers a = some na) (hb : s.ValueNumbers b = some nb)
    (hL : s.LVNTable (Expression.make op na nb) = some n) :
    step s (.binop op i a b) =
      ({ s with ValueNumbers := updMap s.ValueNumbers i n },
       some (.bin n na (getOpcodeName op) nb true)) := by
  simp only [step, mapIndex_hit _ _ _ ha, mapIndex_hit _ _ _ hb, hL]

theorem step_binop_miss (s : LVNState) (op i a b na nb : Nat)
    (ha : s.ValueNumbers a = some na) (hb : s.ValueNumbers b = some nb)
    (hL : s.LVNTable (Expression.make op na nb) = none) :
    step s (.binop op i a b) =
      ({ s with
          ValueNumbers := updMap s.ValueNumbers i s.nextValueNumber,
          LVNTable :=
            updMap s.LVNTable (Expression.make op na nb) s.nextValueNumber,
          nextValueNumber := s.nextValueNumber + 1 },
       some (.bin s.nextValueNumber na (getOpcodeName op) nb false)) := by
  simp only [step, mapIndex_hit _ _ _ ha, mapIndex_hit _ _ _ hb, hL]

theorem runFrom_cons (s : LVNState) (i : Instr) (rest : List Instr) :
    runFrom s (i :: rest) =
      ((runFrom (step s i).1 rest).1,
        (step s i).2.toList ++ (runFrom (step s i).1 rest).2) := rfl

/-- A sample mid-scan state used to instantiate the general theorems:
the identities 1 and 2 hold value numbers 1 and 2, the expression table is
empty, and the next fresh number is 3. -/
def exampleState : LVNState :=
  ⟨fun _ => none,
   fun v => if v = 1 then some 1 else if v = 2 then some 2 else none,
   3⟩

/-- C1: for a commutative opcode (addition or multiplication), the two
instructions op(a,b) and op(b,a), whose operands a and b already hold value
numbers, build the same canonical Expression key, end up with the same value
number, and the second one's diagnostic record is flagged redundant. -/
theorem commutative_pair_same_number_redundant
    (s : LVNState) (op i1 i2 a b na nb : Nat)
    (hop : op = Instruction.Add ∨ op = Instruction.Mul)
    (ha : s.ValueNumbers a = some na) (hb : s.ValueNumbers b = some nb)
    (h1a : i1 ≠ a) (h1b : i1 ≠ b) (h12 : i1 ≠ i2) :
    Expression.make op na nb = Expression.make op nb na ∧
    (runFrom s [.binop op i1 a b, .binop op i2 b a]).1.ValueNumbers i2 =
      (runFrom s [.binop op i1 a b, .binop op i2 b a]).1.ValueNumbers i1 ∧
    ((runFrom s [.binop op i1 a b, .binop op i2 b a]).1.ValueNumbers i1).isSome
      = true ∧
    ((runFrom s [.binop op i1 a b, .binop op i2 b a]).2.map
      Diag.isRedundant).getLast? = some true := by
  have hcomm := Expression.make_comm op na nb hop
  refine ⟨hcomm, ?_⟩
  cases hL : s.LVNTable (Expression.make op na nb) with
  | some n =>
      have e1 := step_binop_hit s op i1 a b na nb n ha hb hL
      have ha1 : (updMap s.ValueNumbers i1 n) a = some na := by
        rw [updMap_ne _ _ _ _ (Ne.symm h1a)]
        exact ha
      have hb1 : (updMap s.ValueNumbers i1 n) b = some nb := by
        rw [updMap_ne _ _ _ _ (Ne.symm h1b)]
        exact hb
      have hL1 :
          ({ s with ValueNumbers := updMap s.ValueNumbers i1 n } :
            LVNState).LVNTable (Expression.make op nb na) = some n := by
        rw [← hcomm]
        exact hL
      have e2 := step_binop_hit
        ({ s with ValueNumbers := updMap s.ValueNumbers i1 n }) op i2 b a
        nb na n hb1 ha1 hL1
      simp only [runFrom, e1, e2, Option.toList]
      refine ⟨?_, ?_, ?_⟩
      · rw [updMap_same, updMap_ne _ _ _ _ h12, updMap_same]
      · rw [updMap_ne _ _ _ _ h12, updMap_same]
        rfl
      · simp [Diag.isRedundant]
  | none =>
      have e1 := step_binop_miss s op i1 a b na nb ha hb hL
      have ha1 :
          (updMap s.ValueNumbers i1 s.nextValueNumber) a = some na := by
        rw [updMap_ne _ _ _ _ (Ne.symm h1a)]
        exact ha
      have hb1 :
          (updMap s.ValueNumbers i1 s.nextValueNumber) b = some nb := by
        rw [updMap_ne _ _ _ _ (Ne.symm h1b)]
        exact hb
      have hL1 :
          ({ s with
              ValueNumbers := updMap s.ValueNumbers i1 s.nextValueNumber,
              LVNTable :=
                updMap s.LVNTable (Expression.make op na nb)
                  s.nextValueNumber,
              nextValueNumber := s.nextValueNumber + 1 } :
            LVNState).LVNTable (Expression.make op nb na)
            = some s.nextValueNumber := by
        show updMap s.LVNTable (Expression.make op na nb) s.nextValueNumber
          (Expression.make op nb na) = some s.nextValueNumber
        rw [← hcomm]
        exact updMap_same _ _ _
      have e2 := step_binop_hit
        ({ s with
            ValueNumbers := updMap s.ValueNumbers i1 s.nextValueNumber,
            LVNTable :=
              updMap s.LVNTable (Expression.make op na nb) s.nextValueNumber,
            nextValueNumber := s.nextValueNumber + 1 }) op i2 b a
        nb na s.nextValueNumber hb1 ha1 hL1
      simp only [runFrom, e1, e2, Option.toList]
      refine ⟨?_, ?_, ?_⟩
      · rw [updMap_same, updMap_ne _ _ _ _ h12, updMap_same]
      · rw [updMap_ne _ _ _ _ h12, updMap_same]
        rfl
      · simp [Diag.isRedundant]

/-- Witness for C1: with identities 1, 2 numbered 1, 2, the pair
add(1,2); add(2,1) unifies and the second record is redundant. -/
theorem commutative_pair_same_number_redundant_w :
    Expression.make Instruction.Add 1 2 = Expression.make Instruction.Add 2 1 ∧
    (runFrom exampleState
      [.binop Instruction.Add 10 1 2,
       .binop Instruction.Add 11 2 1]).1.ValueNumbers 11 =
      (runFrom exampleState
        [.binop Instruction.Add 10 1 2,
         .binop Instruction.Add 11 2 1]).1.ValueNumbers 10 ∧
    ((runFrom exampleState
      [.binop Instruction.Add 10 1 2,
       .binop Instruction.Add 11 2 1]).1.ValueNumbers 10).isSome = true ∧
    ((runFrom exampleState
      [.binop Instruction.Add 10 1 2,
       .binop Instruction.Add 11 2 1]).2.map Diag.isRedundant).getLast?
      = some true :=
  commutative_pair_same_number_redundant exampleState Instruction.Add 10 11
    1 2 1 2 (Or.inl rfl) (by decide) (by decide) (by decide) (by decide)
    (by decide)

/-- C2: a load whose pointer operand is currently bound in ValueNumbers is
assigned exactly the bound number, no fresh value number is allocated (the
counter is untouched), and the emitted record equates the two. -/
theorem load_forwarded_no_fresh (s : LVNState) (i p n : Nat)
    (h : s.ValueNumbers p = some n) :
    (step s (.load i p)).1.ValueNumbers i = some n ∧
    (step s (.load i p)).1.nextValueNumber = s.nextValueNumber ∧
    (step s (.load i p)).2 = some (.load n n) := by
  rw [step_load_hit s i p n h]
  exact ⟨updMap_same _ _ _, rfl, rfl⟩

/-- Witness for C2: a load through identity 1 (bound to number 1) in the
sample state forwards number 1 and leaves the counter at 3. -/
theorem load_forwarded_no_fresh_w :
    (step exampleState (.load 10 1)).1.ValueNumbers 10 = some 1 ∧
    (step exampleState (.load 10 1)).1.nextValueNumber =
      exampleState.nextValueNumber ∧
    (step exampleState (.load 10 1)).2 = some (.load 1 1) :=
  load_forwarded_no_fresh exampleState 10 1 1 (by decide)

/-- C7: a store of storedValue into pointer rebinds only the pointer (and,
when storedValue was unnumbered, adds a binding for it — a present binding
of storedValue is kept, which the getD form expresses); the binding of every
other identity and the whole expression table are unchanged. -/
theorem store_updates_only_pointer (s : LVNState) (sv p v : Nat)
    (hvp : v ≠ p) (hvs : v ≠ sv) :
    (step s (.store sv p)).1.ValueNumbers v = s.ValueNumbers v ∧
    (step s (.store sv p)).1.ValueNumbers sv =
      some ((s.ValueNumbers sv).getD s.nextValueNumber) ∧
    (step s (.store sv p)).1.LVNTable = s.LVNTable := by
  cases h : s.ValueNumbers sv with
  | some n =>
      rw [step_store_hit s sv p n h]
      refine ⟨updMap_ne _ _ _ _ hvp, ?_, rfl⟩
      show updMap s.ValueNumbers p n sv = _
      by_cases hsp : sv = p
      · subst hsp
        exact updMap_same _ _ _
      · rw [updMap_ne _ _ _ _ hsp, h]
        rfl
  | none =>
      rw [step_store_miss s sv p h]
      refine ⟨?_, ?_, rfl⟩
      · show updMap (updMap s.ValueNumbers sv s.nextValueNumber) p
          s.nextValueNumber v = _
        rw [updMap_ne _ _ _ _ hvp, updMap_ne _ _ _ _ hvs]
      · show updMap (updMap s.ValueNumbers sv s.nextValueNumber) p
          s.nextValueNumber sv = _
        by_cases hsp : sv = p
        · subst hsp
          exact updMap_same _ _ _
        · rw [updMap_ne _ _ _ _ hsp]
          exact updMap_same _ _ _

/-- Witness for C7: storing identity 1 into pointer 4 leaves the unrelated
identity 7 and the expression table untouched and keeps 1's binding. -/
theorem store_updates_only_pointer_w :
    (step exampleState (.store 1 4)).1.ValueNumbers 7 =
      exampleState.ValueNumbers 7 ∧
    (step exampleState (.store 1 4)).1.ValueNumbers 1 =
      some ((exampleState.ValueNumbers 1).getD exampleState.nextValueNumber) ∧
    (step exampleState (.store 1 4)).1.LVNTable = exampleState.LVNTable :=
  store_updates_only_pointer exampleState 1 4 7 (by decide) (by decide)

/-- C9: the engine is a pure function of the instruction sequence, so two
runs on the same input produce the same diagnostic stream, final tables and
final counter. -/
theorem engine_deterministic (blocks : List (List Instr)) :
    visitor blocks = visitor blocks := rfl

/-- C6: for a non-commutative opcode (subtraction or one of the divisions),
op(a,b) and op(b,a) over distinct operand numbers build distinct Expression
keys; run back to back (with neither key already recorded), neither record
is flagged redundant and the two instructions get distinct numbers. -/
theorem noncommutative_pair_distinct
    (s : LVNState) (op i1 i2 a b na nb : Nat)
    (hop : op = Instruction.Sub ∨ op = Instruction.UDiv ∨
      op = Instruction.SDiv)
    (ha : s.ValueNumbers a = some na) (hb : s.ValueNumbers b = some nb)
    (hne : na ≠ nb)
    (hL1 : s.LVNTable (Expression.make op na nb) = none)
    (hL2 : s.LVNTable (Expression.make op nb na) = none)
    (h1a : i1 ≠ a) (h1b : i1 ≠ b) (h12 : i1 ≠ i2) :
    Expression.make op na nb ≠ Expression.make op nb na ∧
    ((runFrom s [.binop op i1 a b, .binop op i2 b a]).2.map Diag.isRedundant)
      = [false, false] ∧
    (runFrom s [.binop op i1 a b, .binop op i2 b a]).1.ValueNumbers i1 ≠
      (runFrom s [.binop op i1 a b, .binop op i2 b a]).1.ValueNumbers i2 := by
  have hA : op ≠ Instruction.Add := by
    rcases hop with h | h | h <;> rw [h] <;> decide
  have hM : op ≠ Instruction.Mul := by
    rcases hop with h | h | h <;> rw [h] <;> decide
  have hkey : Expression.make op na nb ≠ Expression.make op nb na := by
    rw [Expression.make_noncomm op na nb hA hM,
      Expression.make_noncomm op nb na hA hM]
    intro hcon
    exact hne (congrArg Expression.LHS hcon)
  have e1 := step_binop_miss s op i1 a b na nb ha hb hL1
  have ha1 : (updMap s.ValueNumbers i1 s.nextValueNumber) a = some na := by
    rw [updMap_ne _ _ _ _ (Ne.symm h1a)]
    exact ha
  have hb1 : (updMap s.ValueNumbers i1 s.nextValueNumber) b = some nb := by
    rw [updMap_ne _ _ _ _ (Ne.symm h1b)]
    exact hb
  have hL2' :
      ({ s with
          ValueNumbers := updMap s.ValueNumbers i1 s.nextValueNumber,
          LVNTable :=
            updMap s.LVNTable (Expression.make op na nb) s.nextValueNumber,
          nextValueNumber := s.nextValueNumber + 1 } :
        LVNState).LVNTable (Expression.make op nb na) = none := by
    show updMap s.LVNTable (Expression.make op na nb) s.nextValueNumber
      (Expression.make op nb na) = none
    rw [updMap_ne _ _ _ _ (Ne.symm hkey)]
    exact hL2
  have e2 := step_binop_miss
    ({ s with
        ValueNumbers := updMap s.ValueNumbers i1 s.nextValueNumber,
        LVNTable :=
          updMap s.LVNTable (Expression.make op na nb) s.nextValueNumber,
        nextValueNumber := s.nextValueNumber + 1 }) op i2 b a nb na
    hb1 ha1 hL2'
  refine ⟨hkey, ?_, ?_⟩
  · simp only [runFrom, e1, e2, Option.toList]
    simp [Diag.isRedundant]
  · simp only [runFrom, e1, e2, Option.toList]
    rw [updMap_ne _ _ _ _ h12, updMap_same, updMap_same]
    intro hcon
    have := Option.some.inj hcon
    omega

/-- Witness for C6: sub(1,2) then sub(2,1) from the sample state stay
distinct and neither is redundant. -/
theorem noncommutative_pair_distinct_w :
    Expression.make Instruction.Sub 1 2 ≠ Expression.make Instruction.Sub 2 1 ∧
    ((runFrom exampleState
      [.binop Instruction.Sub 10 1 2,
       .binop Instruction.Sub 11 2 1]).2.map Diag.isRedundant)
      = [false, false] ∧
    (runFrom exampleState
      [.binop Instruction.Sub 10 1 2,
       .binop Instruction.Sub 11 2 1]).1.ValueNumbers 10 ≠
      (runFrom exampleState
        [.binop Instruction.Sub 10 1 2,
         .binop Instruction.Sub 11 2 1]).1.ValueNumbers 11 :=
  noncommutative_pair_distinct exampleState Instruction.Sub 10 11 1 2 1 2
    (Or.inl rfl) (by decide) (by decide) (by decide) (by decide) (by decide)
    (by decide) (by decide) (by decide)

/-- C10: an unsigned division and a signed division over the same operand
numbers have distinct opcodes, hence distinct Expression keys: the second is
not flagged redundant and gets its own number, even though both render as
the mnemonic "div" in the diagnostic. -/
theorem udiv_sdiv_distinct_keys_same_mnemonic
    (s : LVNState) (i1 i2 a b na nb : Nat)
    (ha : s.ValueNumbers a = some na) (hb : s.ValueNumbers b = some nb)
    (hL1 : s.LVNTable (Expression.make Instruction.UDiv na nb) = none)
    (hL2 : s.LVNTable (Expression.make Instruction.SDiv na nb) = none)
    (h1a : i1 ≠ a) (h1b : i1 ≠ b) (h12 : i1 ≠ i2) :
    Expression.make Instruction.UDiv na nb ≠
      Expression.make Instruction.SDiv na nb ∧
    getOpcodeName Instruction.UDiv = "div" ∧
    getOpcodeName Instruction.SDiv = "div" ∧
    ((runFrom s [.binop Instruction.UDiv i1 a b,
        .binop Instruction.SDiv i2 a b]).2.map Diag.isRedundant)
      = [false, false] ∧
    (runFrom s [.binop Instruction.UDiv i1 a b,
        .binop Instruction.SDiv i2 a b]).1.ValueNumbers i1 ≠
      (runFrom s [.binop Instruction.UDiv i1 a b,
        .binop Instruction.SDiv i2 a b]).1.ValueNumbers i2 := by
  have hkey : Expression.make Instruction.UDiv na nb ≠
      Expression.make Instruction.SDiv na nb := by
    rw [Expression.make_noncomm Instruction.UDiv na nb (by decide) (by decide),
      Expression.make_noncomm Instruction.SDiv na nb (by decide) (by decide)]
    intro hcon
    have := congrArg Expression.Opcode hcon
    simp [Instruction.UDiv, Instruction.SDiv] at this
  have e1 := step_binop_miss s Instruction.UDiv i1 a b na nb ha hb hL1
  have ha1 : (updMap s.ValueNumbers i1 s.nextValueNumber) a = some na := by
    rw [updMap_ne _ _ _ _ (Ne.symm h1a)]
    exact ha
  have hb1 : (updMap s.ValueNumbers i1 s.nextValueNumber) b = some nb := by
    rw [updMap_ne _ _ _ _ (Ne.symm h1b)]
    exact hb
  have hL2' :
      ({ s with
          ValueNumbers := updMap s.ValueNumbers i1 s.nextValueNumber,
          LVNTable :=
            updMap s.LVNTable (Expression.make Instruction.UDiv na nb)
              s.nextValueNumber,
          nextValueNumber := s.nextValueNumber + 1 } :
        LVNState).LVNTable (Expression.make Instruction.SDiv na nb)
        = none := by
    show updMap s.LVNTable (Expression.make Instruction.UDiv na nb)
      s.nextValueNumber (Expression.make Instruction.SDiv na nb) = none
    rw [updMap_ne _ _ _ _ (Ne.symm hkey)]
    exact hL2
  have e2 := step_binop_miss
    ({ s with
        ValueNumbers := updMap s.ValueNumbers i1 s.nextValueNumber,
        LVNTable :=
          updMap s.LVNTable (Expression.make Instruction.UDiv na nb)
            s.nextValueNumber,
        nextValueNumber := s.nextValueNumber + 1 }) Instruction.SDiv i2 a b
    na nb ha1 hb1 hL2'
  refine ⟨hkey, rfl, rfl, ?_, ?_⟩
  · simp only [runFrom, e1, e2, Option.toList]
    simp [Diag.isRedundant]
  · simp only [runFrom, e1, e2, Option.toList]
    rw [updMap_ne _ _ _ _ h12, updMap_same, updMap_same]
    intro hcon
    have := Option.some.inj hcon
    omega

/-- Witness for C10: udiv(1,2) then sdiv(1,2) from the sample state get
distinct numbers, no redundancy flag, same "div" mnemonic. -/
theorem udiv_sdiv_distinct_keys_same_mnemonic_w :
    Expression.make Instruction.UDiv 1 2 ≠
      Expression.make Instruction.SDiv 1 2 ∧
    getOpcodeName Instruction.UDiv = "div" ∧
    getOpcodeName Instruction.SDiv = "div" ∧
    ((runFrom exampleState [.binop Instruction.UDiv 10 1 2,
        .binop Instruction.SDiv 11 1 2]).2.map Diag.isRedundant)
      = [false, false] ∧
    (runFrom exampleState [.binop Instruction.UDiv 10 1 2,
        .binop Instruction.SDiv 11 1 2]).1.ValueNumbers 10 ≠
      (runFrom exampleState [.binop Instruction.UDiv 10 1 2,
        .binop Instruction.SDiv 11 1 2]).1.ValueNumbers 11 :=
  udiv_sdiv_distinct_keys_same_mnemonic exampleState 10 11 1 2 1 2
    (by decide) (by decide) (by decide) (by decide) (by decide) (by decide)
    (by decide)

/-- C5 counterexample: two loads through the never-stored pointer 5.  The
first load is numbered 1, but the diagnostic's operator[] read binds the
pointer to the default 0; the second load therefore finds a binding, is
forwarded the number 0, and no fresh number is allocated for it (the counter
stays at 2 instead of advancing to 3). -/
theorem load_second_not_fresh_cex :
    (runFrom initState [Instr.load 10 5, Instr.load 11 5]).1.ValueNumbers 5
      = some 0 ∧
    (runFrom initState [Instr.load 10 5, Instr.load 11 5]).1.ValueNumbers 11
      = some 0 ∧
    (runFrom initState [Instr.load 10 5, Instr.load 11 5]).1.nextValueNumber
      = 2 := by
  refine ⟨rfl, rfl, rfl⟩

/-- C5 (amended): a load whose pointer is unbound when the load is processed
does get the fresh number nextValueNumber (which is then incremented) — but
the diagnostic's operator[] read then binds the pointer itself to the
default 0, so the pointer is no longer unbound afterwards (and a second load
of a never-stored pointer is instead forwarded that 0). -/
theorem load_unbound_gets_fresh_then_pointer_zero
    (s : LVNState) (i p : Nat)
    (h : s.ValueNumbers p = none) (hip : i ≠ p) :
    (step s (.load i p)).1.ValueNumbers i = some s.nextValueNumber ∧
    (step s (.load i p)).1.nextValueNumber = s.nextValueNumber + 1 ∧
    (step s (.load i p)).1.ValueNumbers p = some 0 := by
  rw [step_load_miss s i p h]
  have hm1 : (updMap s.ValueNumbers i s.nextValueNumber) p = none := by
    rw [updMap_ne _ _ _ _ (Ne.symm hip)]
    exact h
  rw [mapIndex_miss _ p hm1]
  refine ⟨?_, rfl, ?_⟩
  · show updMap (updMap s.ValueNumbers i s.nextValueNumber) p 0 i = _
    rw [updMap_ne _ _ _ _ hip]
    exact updMap_same _ _ _
  · show updMap (updMap s.ValueNumbers i s.nextValueNumber) p 0 p = _
    exact updMap_same _ _ _

/-- Witness for C5 (amended): the first load of pointer 5 from the fresh
state is numbered 1 and leaves the pointer bound to 0. -/
theorem load_unbound_gets_fresh_then_pointer_zero_w :
    (step initState (.load 10 5)).1.ValueNumbers 10 =
      some initState.nextValueNumber ∧
    (step initState (.load 10 5)).1.nextValueNumber =
      initState.nextValueNumber + 1 ∧
    (step initState (.load 10 5)).1.ValueNumbers 5 = some 0 :=
  load_unbound_gets_fresh_then_pointer_zero initState 10 5 (by decide)
    (by decide)

/-- C4 counterexample: a binary add over the never-defined identities 1 and
2, followed by a further instruction.  The run does not abort: both
instructions are processed (two diagnostic records), the unresolvable
operands are silently bound to the default number 0, and the adds are
numbered 1 and 2. -/
theorem unresolved_operand_no_abort_cex :
    ((runFrom initState [Instr.binop Instruction.Add 10 1 2,
        Instr.binop Instruction.Mul 11 1 2]).2).length = 2 ∧
    (runFrom initState [Instr.binop Instruction.Add 10 1 2,
        Instr.binop Instruction.Mul 11 1 2]).1.ValueNumbers 1 = some 0 ∧
    (runFrom initState [Instr.binop Instruction.Add 10 1 2,
        Instr.binop Instruction.Mul 11 1 2]).1.ValueNumbers 2 = some 0 ∧
    (runFrom initState [Instr.binop Instruction.Add 10 1 2,
        Instr.binop Instruction.Mul 11 1 2]).1.ValueNumbers 10 = some 1 ∧
    (runFrom initState [Instr.binop Instruction.Add 10 1 2,
        Instr.binop Instruction.Mul 11 1 2]).1.ValueNumbers 11 = some 2 := by
  refine ⟨rfl, rfl, rfl, rfl, rfl⟩

/-- C4 (amended): an arithmetic instruction referencing an operand with no
assigned number is not a fatal condition: operator[] default-inserts the
number 0 for that operand, a diagnostic record is still emitted, and the
scan continues. -/
theorem unresolved_operand_defaults_zero (s : LVNState) (op i a b : Nat)
    (ha : s.ValueNumbers a = none) (hia : i ≠ a) :
    (step s (.binop op i a b)).1.ValueNumbers a = some 0 ∧
    ((step s (.binop op i a b)).2).isSome = true := by
  have hmA := mapIndex_miss s.ValueNumbers a ha
  simp only [step, hmA]
  cases hmB : (updMap s.ValueNumbers a 0) b with
  | some nb =>
      simp only [mapIndex_hit _ _ _ hmB]
      cases hL : s.LVNTable (Expression.make op 0 nb) with
      | some n =>
          simp only [hL]
          refine ⟨?_, rfl⟩
          rw [updMap_ne _ _ _ _ (Ne.symm hia)]
          exact updMap_same _ _ _
      | none =>
          simp only [hL]
          refine ⟨?_, rfl⟩
          rw [updMap_ne _ _ _ _ (Ne.symm hia)]
          exact updMap_same _ _ _
  | none =>
      have hab : a ≠ b := by
        intro hcon
        rw [← hcon, updMap_same] at hmB
        cases hmB
      simp only [mapIndex_miss _ _ hmB]
      cases hL : s.LVNTable (Expression.make op 0 0) with
      | some n =>
          simp only [hL]
          refine ⟨?_, rfl⟩
          rw [updMap_ne _ _ _ _ (Ne.symm hia), updMap_ne _ _ _ _ hab]
          exact updMap_same _ _ _
      | none =>
          simp only [hL]
          refine ⟨?_, rfl⟩
          rw [updMap_ne _ _ _ _ (Ne.symm hia), updMap_ne _ _ _ _ hab]
          exact updMap_same _ _ _

/-- Witness for C4 (amended): add over the unnumbered identities 1 and 2 in
the fresh state binds operand 1 to 0 and still emits a record. -/
theorem unresolved_operand_defaults_zero_w :
    (step initState (.binop Instruction.Add 10 1 2)).1.ValueNumbers 1
      = some 0 ∧
    ((step initState (.binop Instruction.Add 10 1 2)).2).isSome = true :=
  unresolved_operand_defaults_zero initState Instruction.Add 10 1 2
    (by decide) (by decide)

/-! ### Counter and table invariants -/

/-- Each instruction advances the fresh counter by zero or one. -/
theorem step_next (s : LVNState) (i : Instr) :
    (step s i).1.nextValueNumber = s.nextValueNumber ∨
    (step s i).1.nextValueNumber = s.nextValueNumber + 1 := by
  cases i with
  | store sv p =>
      cases h : s.ValueNumbers sv with
      | some n => rw [step_store_hit s sv p n h]; exact Or.inl rfl
      | none => rw [step_store_miss s sv p h]; exact Or.inr rfl
  | load i p =>
      cases h : s.ValueNumbers p with
      | some n => rw [step_load_hit s i p n h]; exact Or.inl rfl
      | none => rw [step_load_miss s i p h]; exact Or.inr rfl
  | binop op i a b =>
      simp only [step]
      split
      · exact Or.inl rfl
      · exact Or.inr rfl
  | other => exact Or.inl rfl

/-- The fresh counter never decreases along a run. -/
theorem runFrom_next_le (s : LVNState) (is : List Instr) :
    s.nextValueNumber ≤ (runFrom s is).1.nextValueNumber := by
  induction is generalizing s with
  | nil => exact Nat.le_refl _
  | cons i rest ih =>
      show s.nextValueNumber ≤ (runFrom (step s i).1 rest).1.nextValueNumber
      have h1 := step_next s i
      have h2 := ih (step s i).1
      rcases h1 with h | h <;> omega

/-- All numbers recorded in either table are below the fresh counter, and
the counter stays positive.  (Bindings default-inserted by operator[] hold
0, which is also below the counter.) -/
def TablesBounded (s : LVNState) : Prop :=
  (∀ v n, s.ValueNumbers v = some n → n < s.nextValueNumber) ∧
  (∀ e n, s.LVNTable e = some n → n < s.nextValueNumber) ∧
  1 ≤ s.nextValueNumber

theorem updMap_bound {α : Type} [DecidableEq α] (m : α → Option Nat) (k : α)
    (v bound : Nat) (hm : ∀ x n, m x = some n → n < bound) (hv : v < bound) :
    ∀ x n, updMap m k v x = some n → n < bound := by
  intro x n hx
  by_cases hxk : x = k
  · subst hxk
    rw [updMap_same] at hx
    cases hx
    exact hv
  · rw [updMap_ne _ _ _ _ hxk] at hx
    exact hm x n hx

theorem map_bound_mono {α : Type} (m : α → Option Nat) (b1 b2 : Nat)
    (hm : ∀ x n, m x = some n → n < b1) (h : b1 ≤ b2) :
    ∀ x n, m x = some n → n < b2 := by
  intro x n hx
  exact Nat.lt_of_lt_of_le (hm x n hx) h

theorem step_preserves_bounded (s : LVNState) (i : Instr)
    (h : TablesBounded s) : TablesBounded (step s i).1 := by
  obtain ⟨hv, he, hc⟩ := h
  cases i with
  | store sv p =>
      cases hsv : s.ValueNumbers sv with
      | some n =>
          rw [step_store_hit s sv p n hsv]
          exact ⟨updMap_bound _ _ _ _ hv (hv sv n hsv), he, hc⟩
      | none =>
          rw [step_store_miss s sv p hsv]
          refine ⟨?_, ?_, ?_⟩
          · exact updMap_bound _ _ _ _
              (updMap_bound _ _ _ _
                (map_bound_mono _ _ _ hv (Nat.le_succ _)) (Nat.lt_succ_self _))
              (Nat.lt_succ_self _)
          · exact map_bound_mono _ _ _ he (Nat.le_succ _)
          · exact Nat.le_succ_of_le hc
  | load i p =>
      cases hp : s.ValueNumbers p with
      | some n =>
          rw [step_load_hit s i p n hp]
          exact ⟨updMap_bound _ _ _ _ hv (hv p n hp), he, hc⟩
      | none =>
          rw [step_load_miss s i p hp]
          have hm1 : ∀ x n,
              (updMap s.ValueNumbers i s.nextValueNumber) x = some n →
                n < s.nextValueNumber + 1 :=
            updMap_bound _ _ _ _
              (map_bound_mono _ _ _ hv (Nat.le_succ _)) (Nat.lt_succ_self _)
          refine ⟨?_, map_bound_mono _ _ _ he (Nat.le_succ _),
            Nat.le_succ_of_le hc⟩
          cases hq : (updMap s.ValueNumbers i s.nextValueNumber) p with
          | some m =>
              rw [mapIndex_hit _ _ _ hq]
              exact hm1
          | none =>
              rw [mapIndex_miss _ _ hq]
              exact updMap_bound _ _ _ _ hm1 (Nat.succ_pos _)
  | binop op i a b =>
      have hz : 0 < s.nextValueNumber := hc
      have hA : ∀ x n, (mapIndex s.ValueNumbers a).2 x = some n →
          n < s.nextValueNumber := by
        cases hq : s.ValueNumbers a with
        | some m =>
            rw [mapIndex_hit _ _ _ hq]
            exact hv
        | none =>
            rw [mapIndex_miss _ _ hq]
            exact updMap_bound _ _ _ _ hv hz
      have hB : ∀ x n, (mapIndex (mapIndex s.ValueNumbers a).2 b).2 x
          = some n → n < s.nextValueNumber := by
        cases hq : (mapIndex s.ValueNumbers a).2 b with
        | some m =>
            rw [mapIndex_hit _ _ _ hq]
            exact hA
        | none =>
            rw [mapIndex_miss _ _ hq]
            exact updMap_bound _ _ _ _ hA hz
      simp only [step]
      cases hL : s.LVNTable (Expression.make op (mapIndex s.ValueNumbers a).1
          (mapIndex (mapIndex s.ValueNumbers a).2 b).1) with
      | some n =>
          simp only [hL]
          exact ⟨updMap_bound _ _ _ _ hB (he _ n hL), he, hc⟩
      | none =>
          simp only [hL]
          refine ⟨?_, ?_, Nat.le_succ_of_le hc⟩
          · exact updMap_bound _ _ _ _
              (map_bound_mono _ _ _ hB (Nat.le_succ _)) (Nat.lt_succ_self _)
          · exact updMap_bound _ _ _ _
              (map_bound_mono _ _ _ he (Nat.le_succ _)) (Nat.lt_succ_self _)
  | other => exact ⟨hv, he, hc⟩

theorem runFrom_preserves_bounded (s : LVNState) (is : List Instr)
    (h : TablesBounded s) : TablesBounded (runFrom s is).1 := by
  induction is generalizing s with
  | nil => exact h
  | cons i rest ih =>
      rw [runFrom_cons]
      exact ih (step s i).1 (step_preserves_bounded s i h)

/-- C8 counterexample: after a single load through the never-stored pointer
5 from the fresh state, the ValueNumberTable holds the binding 5 -> 0 — a
stored value number that is not a positive integer. -/
theorem table_value_zero_cex :
    (runFrom initState [Instr.load 10 5]).1.ValueNumbers 5 = some 0 := rfl

/-- C8 (amended): at every point of a function's analysis every value
number stored in the ValueNumberTable is strictly below the fresh counter
nextValueNumber; positivity does not hold, because operator[] reads of an
unnumbered key (a load's pointer in the diagnostic, or a binary operand)
insert the default binding 0. -/
theorem table_values_lt_counter (is : List Instr) (v n : Nat)
    (h : (runFrom initState is).1.ValueNumbers v = some n) :
    n < (runFrom initState is).1.nextValueNumber := by
  have hb : TablesBounded initState := by
    refine ⟨?_, ?_, ?_⟩
    · intro v n hx
      cases hx
    · intro e n hx
      cases hx
    · exact Nat.le_refl _
  exact (runFrom_preserves_bounded initState is hb).1 v n h

/-- Witness for C8 (amended): after the single load, the load's own number
1 (and the inserted 0) are below the counter 2. -/
theorem table_values_lt_counter_w :
    1 < (runFrom initState [Instr.load 10 5]).1.nextValueNumber :=
  table_values_lt_counter [Instr.load 10 5] 10 1 rfl

/-! ### Issued numbers form the dense range starting at the initial counter -/

theorem runIssued_eq_range (s : LVNState) (is : List Instr) :
    runIssued s is =
      List.range' s.nextValueNumber
        ((runFrom s is).1.nextValueNumber - s.nextValueNumber) := by
  induction is generalizing s with
  | nil => simp [runIssued, runFrom]
  | cons i rest ih =>
      show List.range' s.nextValueNumber
          ((step s i).1.nextValueNumber - s.nextValueNumber)
          ++ runIssued (step s i).1 rest =
        List.range' s.nextValueNumber
          ((runFrom (step s i).1 rest).1.nextValueNumber - s.nextValueNumber)
      rw [ih]
      have h1 := step_next s i
      have h2 := runFrom_next_le (step s i).1 rest
      rcases h1 with h | h
      · rw [h]
        simp
      · rw [h]
        have hd : s.nextValueNumber + 1 - s.nextValueNumber = 1 := by omega
        rw [hd]
        rw [List.range'_append_1 s.nextValueNumber 1
          ((runFrom (step s i).1 rest).1.nextValueNumber
            - (s.nextValueNumber + 1))]
        congr 1
        omega

/-- C3: the value numbers freshly issued while analysing one function form
exactly the gap-free strictly increasing range 1, 2, ... up to the final
counter value, and no issued number repeats (each issuance is for a new
canonical value). -/
theorem issued_numbers_dense (blocks : List (List Instr)) :
    runIssued initState blocks.flatten =
      List.range' 1 ((visitor blocks).1.nextValueNumber - 1) ∧
    (runIssued initState blocks.flatten).Nodup := by
  have h := runIssued_eq_range initState blocks.flatten
  refine ⟨h, ?_⟩
  rw [h]
  exact List.nodup_range' _ _

end ValueNumbering
